import Mathlib

/-!
Shallow embedding of the YAZIS morphological engine
(`src/utils/helpers.py`, `src/core/rule_engine.py`,
`src/core/morphological_analyzer.py`, `src/models/lexeme.py`).

Python strings are modelled as `List Char`; Python dicts as association
lists with first-match lookup; fallible code (`json.load`) returns
`Except`.
-/

namespace Yazis

set_option maxRecDepth 4096

abbrev Str := List Char

def pstr (s : String) : Str := s.data

/-- `VOWELS = frozenset("aeiou")` from `src/utils/constants.py`. -/
def VOWELS : List Char := ['a', 'e', 'i', 'o', 'u']

/-- `CONSONANTS = frozenset("bcdfghjklmnpqrstvwxyz")` from `src/utils/constants.py`. -/
def CONSONANTS : List Char :=
  ['b', 'c', 'd', 'f', 'g', 'h', 'j', 'k', 'l', 'm', 'n', 'p', 'q', 'r', 's', 't', 'v', 'w', 'x', 'y', 'z']

/-- `is_vowel` from `src/utils/helpers.py`: `ch.lower() in VOWELS`. -/
def is_vowel (ch : Char) : Bool := decide (ch.toLower ∈ VOWELS)

/-- `is_consonant` from `src/utils/helpers.py`: `ch.lower() in CONSONANTS`. -/
def is_consonant (ch : Char) : Bool := decide (ch.toLower ∈ CONSONANTS)

/-- Python `s.lower()`. -/
def toLowerStr (s : Str) : Str := s.map Char.toLower

/-- Python negative indexing `s[-k]` (used only under length guards in the source). -/
def pyNeg (s : Str) (k : Nat) : Char := s.getD (s.length - k) ' '

/-- Python `s.endswith(suffix)`. -/
def endswith (s suf : Str) : Bool := decide (suf <:+ s)

/-- Python `s.startswith(p)`. -/
def startswith (s p : Str) : Bool := decide (p <+: s)

/-- Python substring test `sub in s`. -/
def pyIn (sub s : Str) : Bool := decide (sub <:+: s)

/-- `double_final_consonant` from `src/utils/helpers.py`, lines 28-45. -/
def double_final_consonant (stem : Str) : Str :=
  if stem.length < 2 then
    if stem ≠ [] ∧ is_consonant (pyNeg stem 1) then stem ++ [pyNeg stem 1] else stem
  else
    if is_consonant (pyNeg stem 1) ∧ is_vowel (pyNeg stem 2)
        ∧ (stem.length < 3 ∨ is_consonant (pyNeg stem 3))
        ∧ pyNeg stem 1 ∉ (['w', 'x', 'y'] : List Char) then
      stem ++ [pyNeg stem 1]
    else stem

/-- `apply_ies_rule` from `src/utils/helpers.py`. -/
def apply_ies_rule (stem : Str) : Str :=
  if endswith stem (pstr "y") ∧ 2 ≤ stem.length ∧ is_consonant (pyNeg stem 2) then
    stem.dropLast ++ pstr "ies"
  else stem ++ pstr "s"

/-- `apply_es_rule` from `src/utils/helpers.py`. -/
def apply_es_rule (stem : Str) : Str :=
  if endswith stem (pstr "s") ∨ endswith stem (pstr "x") ∨ endswith stem (pstr "z")
      ∨ endswith stem (pstr "ch") ∨ endswith stem (pstr "sh") then
    stem ++ pstr "es"
  else stem ++ pstr "s"

/-- `MorphologicalFeature` from `src/models/lexeme.py`: a sparse record of
optional string-valued fields (Python dataclass with `None` defaults;
`case` is spelled `case'` because `case` is a Lean keyword). -/
structure MorphologicalFeature where
  tense : Option Str := none
  number : Option Str := none
  person : Option Str := none
  case' : Option Str := none
  degree : Option Str := none
  aspect : Option Str := none
  voice : Option Str := none
deriving DecidableEq

/-- `WordForm` from `src/models/lexeme.py`. -/
structure WordForm where
  form : Str
  ending : Str
  features : MorphologicalFeature
deriving DecidableEq

/-- `PartOfSpeech` from `src/models/enums.py` (closed 12-tag set). -/
inductive PartOfSpeech where
  | NOUN | VERB | ADJECTIVE | ADVERB | PRONOUN | PREPOSITION
  | CONJUNCTION | DETERMINER | INTERJECTION | NUMERAL | PARTICLE | OTHER
deriving DecidableEq

/-- Python `dict` modelled as an association list. -/
abbrev Dict (α : Type) := List (Str × α)

/-- Python `d.get(key)` (keys of a dict are unique, so first match suffices). -/
def dget {α : Type} : Dict α → Str → Option α
  | [], _ => none
  | (k, v) :: rest, key => if k = key then some v else dget rest key

/-- Python `x or fallback` where `x` is `d.get(key)` (both `None` and the
empty string are falsy). -/
def orElseStr (x : Option Str) (fallback : Str) : Str :=
  match x with
  | none => fallback
  | some s => if s = [] then fallback else s

/-- The three irregular-form maps held by `RuleEngine` after loading
(`src/core/rule_engine.py`, `__init__`/`_ensure_loaded`). -/
structure Tables where
  irregular_verbs : Dict (Dict Str)
  irregular_nouns : Dict Str
  irregular_adjectives : Dict (Dict Str)

/-- `RuleEngine._compute_ending` (`src/core/rule_engine.py` lines 297-306);
identical to `NLTKStrategy._compute_ending` in
`src/core/morphological_analyzer.py` lines 134-145. -/
def lcpLen : Str → Str → Nat
  | a :: as, b :: bs => if a = b then lcpLen as bs + 1 else 0
  | _, _ => 0

def compute_ending (lem form : Str) : Str :=
  if form = lem then []
  else
    let suf := form.drop (lcpLen lem form)
    if suf = [] then [] else '-' :: suf

/-- `RuleEngine._regular_past` (`src/core/rule_engine.py` lines 147-156). -/
def regular_past (lem : Str) : Str :=
  if endswith lem (pstr "e") then lem ++ pstr "d"
  else if endswith lem (pstr "y") ∧ 2 ≤ lem.length ∧ is_consonant (pyNeg lem 2) then
    lem.dropLast ++ pstr "ied"
  else
    let stem := double_final_consonant lem
    if stem ≠ lem then stem ++ pstr "ed" else lem ++ pstr "ed"

/-- `RuleEngine._regular_present_participle` (`src/core/rule_engine.py` lines 158-167). -/
def regular_present_participle (lem : Str) : Str :=
  if endswith lem (pstr "ie") then lem.dropLast.dropLast ++ pstr "ying"
  else if endswith lem (pstr "e") ∧ ¬ endswith lem (pstr "ee") then
    lem.dropLast ++ pstr "ing"
  else
    let stem := double_final_consonant lem
    if stem ≠ lem then stem ++ pstr "ing" else lem ++ pstr "ing"

/-- `RuleEngine._regular_third_person` (`src/core/rule_engine.py` lines 169-171). -/
def regular_third_person (lem : Str) : Str :=
  if endswith lem (pstr "s") ∨ endswith lem (pstr "x") ∨ endswith lem (pstr "z")
      ∨ endswith lem (pstr "ch") ∨ endswith lem (pstr "sh") then
    apply_es_rule lem
  else apply_ies_rule lem

/-- `RuleEngine._generate_verb_form` (`src/core/rule_engine.py` lines 131-145). -/
def generate_verb_form (t : Tables) (lem : Str) (feat : MorphologicalFeature) : Str :=
  let irr := (dget t.irregular_verbs (toLowerStr lem)).getD []
  if feat.tense = some (pstr "past") then
    orElseStr (dget irr (pstr "past")) (regular_past lem)
  else if feat.tense = some (pstr "past_participle") then
    orElseStr (dget irr (pstr "past_participle")) (regular_past lem)
  else if feat.tense = some (pstr "present_participle") then
    orElseStr (dget irr (pstr "present_participle")) (regular_present_participle lem)
  else if feat.tense = some (pstr "present") ∧ feat.person = some (pstr "3rd")
      ∧ feat.number = some (pstr "singular") then
    orElseStr (dget irr (pstr "third_person")) (regular_third_person lem)
  else if feat.tense = some (pstr "infinitive") then lem
  else lem

/-- `RuleEngine._regular_plural` (`src/core/rule_engine.py` lines 200-209). -/
def regular_plural (lem : Str) : Str :=
  if endswith lem (pstr "s") ∨ endswith lem (pstr "x") ∨ endswith lem (pstr "z")
      ∨ endswith lem (pstr "ch") ∨ endswith lem (pstr "sh") then
    lem ++ pstr "es"
  else if endswith lem (pstr "y") ∧ 2 ≤ lem.length ∧ is_consonant (pyNeg lem 2) then
    lem.dropLast ++ pstr "ies"
  else if endswith lem (pstr "f") then lem.dropLast ++ pstr "ves"
  else if endswith lem (pstr "fe") then lem.dropLast.dropLast ++ pstr "ves"
  else lem ++ pstr "s"

/-- `RuleEngine._generate_noun_form` (`src/core/rule_engine.py` lines 190-198). -/
def generate_noun_form (t : Tables) (lem : Str) (feat : MorphologicalFeature) : Str :=
  if feat.number = some (pstr "plural") then
    orElseStr (dget t.irregular_nouns (toLowerStr lem)) (regular_plural lem)
  else if feat.case' = some (pstr "possessive") then lem ++ pstr "'s"
  else lem

/-- `RuleEngine._is_short_adjective` loop (`src/core/rule_engine.py` lines 258-270). -/
def vowel_group_loop : Nat → Bool → Str → Nat
  | n, _, [] => n
  | n, prev_vowel, ch :: rest =>
    if is_vowel ch then vowel_group_loop (if prev_vowel then n else n + 1) true rest
    else vowel_group_loop n false rest

def is_short_adjective (word : Str) : Bool :=
  decide (vowel_group_loop 0 false (toLowerStr word) ≤ 2)

/-- `RuleEngine._regular_comparative` (`src/core/rule_engine.py` lines 233-244). -/
def regular_comparative (lem : Str) : Str :=
  if is_short_adjective lem then
    if endswith lem (pstr "e") then lem ++ pstr "r"
    else if endswith lem (pstr "y") ∧ 2 ≤ lem.length ∧ is_consonant (pyNeg lem 2) then
      lem.dropLast ++ pstr "ier"
    else
      let stem := double_final_consonant lem
      if stem ≠ lem then stem ++ pstr "er" else lem ++ pstr "er"
  else pstr "more " ++ lem

/-- `RuleEngine._regular_superlative` (`src/core/rule_engine.py` lines 246-256). -/
def regular_superlative (lem : Str) : Str :=
  if is_short_adjective lem then
    if endswith lem (pstr "e") then lem ++ pstr "st"
    else if endswith lem (pstr "y") ∧ 2 ≤ lem.length ∧ is_consonant (pyNeg lem 2) then
      lem.dropLast ++ pstr "iest"
    else
      let stem := double_final_consonant lem
      if stem ≠ lem then stem ++ pstr "est" else lem ++ pstr "est"
  else pstr "most " ++ lem

/-- `RuleEngine._generate_adjective_form` (`src/core/rule_engine.py` lines 220-231). -/
def generate_adjective_form (t : Tables) (lem : Str) (feat : MorphologicalFeature) : Str :=
  let irr := (dget t.irregular_adjectives (toLowerStr lem)).getD []
  if feat.degree = some (pstr "comparative") then
    if irr ≠ [] ∧ (dget irr (pstr "comparative")).isSome then
      (dget irr (pstr "comparative")).getD []
    else regular_comparative lem
  else if feat.degree = some (pstr "superlative") then
    if irr ≠ [] ∧ (dget irr (pstr "superlative")).isSome then
      (dget irr (pstr "superlative")).getD []
    else regular_superlative lem
  else lem

/-- `RuleEngine._generate_adverb_form` (`src/core/rule_engine.py` lines 281-286). -/
def generate_adverb_form (lem : Str) (feat : MorphologicalFeature) : Str :=
  if feat.degree = some (pstr "comparative") then pstr "more " ++ lem
  else if feat.degree = some (pstr "superlative") then pstr "most " ++ lem
  else lem

/-- `RuleEngine.generate_form` (`src/core/rule_engine.py` lines 64-91), after
the one-time load has produced the tables `t`. -/
def generate_form (t : Tables) (lexeme : Str) (pos : PartOfSpeech)
    (features : MorphologicalFeature) : WordForm :=
  let form :=
    match pos with
    | .VERB => generate_verb_form t lexeme features
    | .NOUN => generate_noun_form t lexeme features
    | .ADJECTIVE => generate_adjective_form t lexeme features
    | .ADVERB => generate_adverb_form lexeme features
    | _ => lexeme
  { form := form, ending := compute_ending lexeme form, features := features }

/-- `RuleEngine._all_verb_forms` (`src/core/rule_engine.py` lines 173-186). -/
def all_verb_forms (t : Tables) (lem : Str) : List WordForm :=
  ([ { tense := some (pstr "infinitive") },
     { tense := some (pstr "present") },
     { tense := some (pstr "present"), person := some (pstr "3rd"), number := some (pstr "singular") },
     { tense := some (pstr "past") },
     { tense := some (pstr "past_participle") },
     { tense := some (pstr "present_participle"), aspect := some (pstr "progressive") } ]
   : List MorphologicalFeature).map
    fun feat => generate_form t lem .VERB feat

/-- `RuleEngine._load_json` (`src/core/rule_engine.py` lines 54-60): a
missing file is reported and `{}` is returned; an existing file is handed to
`json.load`, whose parse failure propagates as an exception. The file system
is modelled as the optional file contents, `json.load` as a parse function
on the contents returning `Except`. -/
def load_json {α : Type} (contents : Option Str) (parse : Str → Except Str α)
    (empty : α) : Except Str α :=
  match contents with
  | none => Except.ok empty
  | some s => parse s

/-- The three resource files read by `RuleEngine._ensure_loaded`. -/
structure ResourceFS where
  irregular_verbs_file : Option Str
  irregular_nouns_file : Option Str
  irregular_adjectives_file : Option Str

/-- `RuleEngine._ensure_loaded` (`src/core/rule_engine.py` lines 39-52). -/
def ensure_loaded (fs : ResourceFS)
    (parseV : Str → Except Str (Dict (Dict Str)))
    (parseN : Str → Except Str (Dict Str))
    (parseA : Str → Except Str (Dict (Dict Str))) : Except Str Tables := do
  let v ← load_json fs.irregular_verbs_file parseV []
  let n ← load_json fs.irregular_nouns_file parseN []
  let a ← load_json fs.irregular_adjectives_file parseA []
  return ⟨v, n, a⟩

/-- `RuleEngine.generate_form` as called on a fresh engine: the lazy
`_ensure_loaded` step runs first and any exception it raises propagates. -/
def generate_form_raw (fs : ResourceFS)
    (parseV : Str → Except Str (Dict (Dict Str)))
    (parseN : Str → Except Str (Dict Str))
    (parseA : Str → Except Str (Dict (Dict Str)))
    (lex : Str) (pos : PartOfSpeech) (feat : MorphologicalFeature) :
    Except Str WordForm :=
  match ensure_loaded fs parseV parseN parseA with
  | Except.error e => Except.error e
  | Except.ok t => Except.ok (generate_form t lex pos feat)

/-- Modelled from the spec: the irregular-verb resource file
(`resources/irregular_verbs.json`) is not under `src/`; its entry for
"run" is reconstructed from the spec's verb slot schema (past,
past_participle, present_participle, third_person) and the spec scenario
`generate_form("run", VERB, {tense: past})` yielding `"ran"`. -/
def spec_irregular_verbs : Dict (Dict Str) :=
  [(pstr "run",
    [(pstr "past", pstr "ran"), (pstr "past_participle", pstr "run"),
     (pstr "present_participle", pstr "running"), (pstr "third_person", pstr "runs")])]

/-- C1 counterexample: `_compute_ending` returns `""` for lemma "runs" and
form "run" although the form differs from the lemma — the claimed
equivalence `ending == "" ⟺ form == lemma` fails whenever the form is a
proper prefix of the lemma. -/
theorem claim_C1_counterexample :
    compute_ending (pstr "runs") (pstr "run") = [] ∧ pstr "run" ≠ pstr "runs" := by
  decide

/-- C2 counterexample: when the irregular-verbs resource file exists but its
contents fail to parse, `_load_json` does not substitute an empty map — the
parse failure propagates out of the lazy load, so `generate_form` on a fresh
engine raises instead of succeeding with regular rules. -/
theorem claim_C2_counterexample :
    generate_form_raw ⟨some (pstr "not json"), none, none⟩
      (fun _ => Except.error (pstr "Expecting value"))
      (fun _ => Except.ok []) (fun _ => Except.ok [])
      (pstr "run") PartOfSpeech.VERB {} =
      Except.error (pstr "Expecting value") := rfl

/-- C2 (amended): a missing resource file degrades to an empty map without
raising, and on a fresh engine with all three resource files missing,
`generate_form` succeeds for every input, producing exactly the form the
engine generates from empty irregular tables (regular rules only); a parse
failure of an existing file, however, propagates. -/
theorem claim_C2_corrected
    (parseV : Str → Except Str (Dict (Dict Str)))
    (parseN : Str → Except Str (Dict Str))
    (parseA : Str → Except Str (Dict (Dict Str)))
    (lex : Str) (pos : PartOfSpeech) (feat : MorphologicalFeature) :
    load_json none parseN ([] : Dict Str) = Except.ok [] ∧
    generate_form_raw ⟨none, none, none⟩ parseV parseN parseA lex pos feat =
      Except.ok (generate_form ⟨[], [], []⟩ lex pos feat) := by
  exact ⟨rfl, rfl⟩

/-- C3 counterexample: a single-consonant stem is *not* returned unchanged —
`double_final_consonant("b")` is `"bb"`, contradicting the claim that stems
of length 0 or 1 are returned unchanged. -/
theorem claim_C3_counterexample :
    double_final_consonant (pstr "b") = pstr "bb" ∧ pstr "bb" ≠ pstr "b" := by
  decide

/-- C4 counterexample: for the irregular lemma "run" (spec-modelled entry:
past "ran", past_participle "run"), the past_participle request returns the
entry's `past_participle` slot "run", not its `past` slot "ran" as the claim
states. -/
theorem claim_C4_counterexample :
    (generate_form ⟨spec_irregular_verbs, [], []⟩ (pstr "run") PartOfSpeech.VERB
        { tense := some (pstr "past_participle") }).form = pstr "run" ∧
    dget ((dget spec_irregular_verbs (pstr "run")).getD []) (pstr "past") =
      some (pstr "ran") ∧
    pstr "run" ≠ pstr "ran" := by
  decide

/-- C6: for every table state, lemma, feature record and part of speech
outside {VERB, NOUN, ADJECTIVE, ADVERB}, `generate_form` returns a WordForm
whose form is the lemma itself and whose ending is empty — the identity
fallback, never an error. -/
theorem claim_C6_confirmed (t : Tables) (lex : Str) (pos : PartOfSpeech)
    (feat : MorphologicalFeature)
    (h : pos ≠ PartOfSpeech.VERB ∧ pos ≠ PartOfSpeech.NOUN ∧
         pos ≠ PartOfSpeech.ADJECTIVE ∧ pos ≠ PartOfSpeech.ADVERB) :
    (generate_form t lex pos feat).form = lex ∧
    (generate_form t lex pos feat).ending = [] := by
  obtain ⟨h1, h2, h3, h4⟩ := h
  cases pos <;> simp_all [generate_form, compute_ending]

/-- Witness for C6 at a concrete input (a pronoun). -/
theorem claim_C6_witness :
    (generate_form ⟨[], [], []⟩ (pstr "it") PartOfSpeech.PRONOUN {}).form = pstr "it" ∧
    (generate_form ⟨[], [], []⟩ (pstr "it") PartOfSpeech.PRONOUN {}).ending = [] :=
  claim_C6_confirmed ⟨[], [], []⟩ (pstr "it") PartOfSpeech.PRONOUN {} (by decide)

/-- C7: for every table state and lemma, `_all_verb_forms` returns exactly 6
WordForms, in the fixed order infinitive, present, present+3rd+singular,
past, past_participle, present_participle+progressive; being a pure function
of (tables, lemma), its output is the same ordered sequence on every call
with identical input. -/
theorem claim_C7_confirmed (t : Tables) (lem : Str) :
    (all_verb_forms t lem).length = 6 ∧
    (all_verb_forms t lem).map WordForm.features =
      [ { tense := some (pstr "infinitive") },
        { tense := some (pstr "present") },
        { tense := some (pstr "present"), person := some (pstr "3rd"),
          number := some (pstr "singular") },
        { tense := some (pstr "past") },
        { tense := some (pstr "past_participle") },
        { tense := some (pstr "present_participle"),
          aspect := some (pstr "progressive") } ] ∧
    all_verb_forms t lem =
      [ generate_form t lem PartOfSpeech.VERB { tense := some (pstr "infinitive") },
        generate_form t lem PartOfSpeech.VERB { tense := some (pstr "present") },
        generate_form t lem PartOfSpeech.VERB
          { tense := some (pstr "present"), person := some (pstr "3rd"),
            number := some (pstr "singular") },
        generate_form t lem PartOfSpeech.VERB { tense := some (pstr "past") },
        generate_form t lem PartOfSpeech.VERB { tense := some (pstr "past_participle") },
        generate_form t lem PartOfSpeech.VERB
          { tense := some (pstr "present_participle"),
            aspect := some (pstr "progressive") } ] := by
  refine ⟨rfl, rfl, rfl⟩

theorem lcpLen_le_right (a b : Str) : lcpLen a b ≤ b.length := by
  induction a generalizing b with
  | nil => cases b <;> simp [lcpLen]
  | cons x as ih =>
    cases b with
    | nil => simp [lcpLen]
    | cons y bs =>
      by_cases h : x = y <;> simp [lcpLen, h, Nat.succ_le_succ (ih bs)]

theorem lcpLen_eq_len_iff (a b : Str) : lcpLen a b = b.length ↔ b <+: a := by
  induction b generalizing a with
  | nil =>
    cases a <;> simp [lcpLen]
  | cons y bs ih =>
    cases a with
    | nil => simp [lcpLen]
    | cons x as =>
      by_cases h : x = y
      · subst h
        simp [lcpLen, List.cons_prefix_cons, ih as]
      · have : ¬ (y :: bs <+: x :: as) := by
          simp [List.cons_prefix_cons]
          intro hxy
          exact absurd hxy.symm h
        simp [lcpLen, h, this]

theorem lcp_take_eq (a b : Str) : b.take (lcpLen a b) = a.take (lcpLen a b) := by
  induction a generalizing b with
  | nil => cases b <;> simp [lcpLen]
  | cons x as ih =>
    cases b with
    | nil => simp [lcpLen]
    | cons y bs =>
      by_cases h : x = y <;> simp [lcpLen, h, ih bs]

theorem lcp_longest (a b p : Str) (ha : p <+: a) (hb : p <+: b) :
    p.length ≤ lcpLen a b := by
  induction p generalizing a b with
  | nil => simp
  | cons c ps ih =>
    cases a with
    | nil => simp at ha
    | cons x as =>
      cases b with
      | nil => simp at hb
      | cons y bs =>
        rw [List.cons_prefix_cons] at ha hb
        obtain ⟨hcx, ha'⟩ := ha
        obtain ⟨hcy, hb'⟩ := hb
        subst hcx
        subst hcy
        simp [lcpLen]
        exact ih as bs ha' hb'

/-- C1 (corrected): the ending computation returns `""` exactly when the form
is a prefix of the lemma (in particular when they are equal, but also for
proper prefixes); when the form is not a prefix of the lemma, it returns
`"-"` followed by the form with the longest common prefix of lemma and form
removed (`lcpLen` is that longest common prefix's length, as the last two
conjuncts state). -/
theorem claim_C1_corrected (lem form : Str) :
    (compute_ending lem form = [] ↔ form <+: lem) ∧
    (¬ form <+: lem →
       compute_ending lem form = '-' :: form.drop (lcpLen lem form)) ∧
    form.take (lcpLen lem form) = lem.take (lcpLen lem form) ∧
    (∀ p : Str, p <+: lem → p <+: form → p.length ≤ lcpLen lem form) := by
  have hdrop : form.drop (lcpLen lem form) = [] ↔ form <+: lem := by
    rw [List.drop_eq_nil_iff]
    constructor
    · intro hle
      have := lcpLen_le_right lem form
      exact (lcpLen_eq_len_iff lem form).mp (by omega)
    · intro hp
      exact le_of_eq ((lcpLen_eq_len_iff lem form).mpr hp).symm
  refine ⟨?_, ?_, lcp_take_eq lem form, fun p hl hf => lcp_longest lem form p hl hf⟩
  · unfold compute_ending
    by_cases heq : form = lem
    · subst heq
      simp
    · rw [if_neg heq]
      by_cases hnil : form.drop (lcpLen lem form) = []
      · simp [hnil, hdrop.mp hnil]
      · simp only [hnil, if_neg hnil]
        simp [hdrop] at hnil
        simp [hnil]
  · intro hnp
    have heq : form ≠ lem := fun h => hnp (h ▸ List.prefix_refl form)
    have hnil : form.drop (lcpLen lem form) ≠ [] := fun h => hnp (hdrop.mp h)
    unfold compute_ending
    rw [if_neg heq]
    show (if form.drop (lcpLen lem form) = [] then []
          else '-' :: form.drop (lcpLen lem form)) = _
    rw [if_neg hnil]

/-- Witness for C1 at a concrete input: lemma "cat", form "cats". -/
theorem claim_C1_witness :
    compute_ending (pstr "cat") (pstr "cats") = pstr "-s" := by
  have h := (claim_C1_corrected (pstr "cat") (pstr "cats")).2.1 (by decide)
  rw [h]
  decide

/-- Amended doubling condition, stated on the shape of the end of the stem:
either the stem is one single consonant (which the code doubles too, with no
w/x/y exclusion), or the stem ends vowel-consonant with the final consonant
outside {w, x, y} and the vowel is either the start of the stem (length-2
stems count) or preceded by a consonant (the CVC pattern of the claim). -/
def doubles_condition (stem : Str) : Bool :=
  match stem.reverse with
  | [] => false
  | [c1] => is_consonant c1
  | c1 :: c2 :: rest =>
      is_consonant c1 && is_vowel c2 && !decide (c1 ∈ (['w', 'x', 'y'] : List Char))
        && (rest.isEmpty || is_consonant (rest.headD 'a'))

theorem getD_append_out (L M : Str) (i : Nat) (d : Char) :
    (L ++ M).getD (L.length + i) d = M.getD i d := by
  induction L with
  | nil => simp
  | cons a L ih =>
    have h : (a :: L).length + i = (L.length + i) + 1 := by
      simp only [List.length_cons]
      omega
    rw [List.cons_append, h, List.getD_cons_succ]
    exact ih

theorem pyNeg_append (L M : Str) (k : Nat) (h1 : 1 ≤ k) (h2 : k ≤ M.length) :
    pyNeg (L ++ M) k = pyNeg M k := by
  unfold pyNeg
  have h : (L ++ M).length - k = L.length + (M.length - k) := by
    simp only [List.length_append]
    omega
  rw [h, getD_append_out]

theorem reverse_shape (stem : Str) (c1 c2 : Char) (rest : Str)
    (h : stem.reverse = c1 :: c2 :: rest) :
    stem = rest.reverse ++ [c2, c1] := by
  rw [← List.reverse_reverse stem, h]
  simp

theorem dfc_eq (stem : Str) :
    double_final_consonant stem =
      if doubles_condition stem then stem ++ stem.reverse.take 1 else stem := by
  rcases hrev : stem.reverse with _ | ⟨c1, rest1⟩
  · have hs : stem = [] := by
      rw [← List.reverse_reverse stem, hrev]
      rfl
    subst hs
    simp at hrev
    simp [doubles_condition, double_final_consonant]
  · rcases rest1 with _ | ⟨c2, rest⟩
    · have hs : stem = [c1] := by
        rw [← List.reverse_reverse stem, hrev]
        rfl
      subst hs
      have hdc : doubles_condition [c1] = is_consonant c1 := by
        unfold doubles_condition
        rfl
      by_cases h1 : is_consonant c1 = true <;>
        simp [double_final_consonant, pyNeg, hdc, h1]
    · have hs : stem = rest.reverse ++ [c2, c1] := reverse_shape stem c1 c2 rest hrev
      have hdc : doubles_condition stem =
          (is_consonant c1 && is_vowel c2
            && !decide (c1 ∈ (['w', 'x', 'y'] : List Char))
            && (rest.isEmpty || is_consonant (rest.headD 'a'))) := by
        unfold doubles_condition
        rw [hrev]
      have hp1 : pyNeg stem 1 = c1 := by
        rw [hs, pyNeg_append _ _ 1 (by omega) (by simp)]
        rfl
      have hp2 : pyNeg stem 2 = c2 := by
        rw [hs, pyNeg_append _ _ 2 (by omega) (by simp)]
        rfl
      have htake : stem.reverse.take 1 = [c1] := by
        rw [hrev]
        rfl
      rcases rest with _ | ⟨c3, rest'⟩
      · have hs2 : stem = [c2, c1] := by simpa using hs
        subst hs2
        by_cases h1 : is_consonant c1 = true <;>
          by_cases h2 : is_vowel c2 = true <;>
          by_cases h3 : c1 ∈ (['w', 'x', 'y'] : List Char) <;>
          simp [double_final_consonant, pyNeg, hdc, h1, h2, h3]
      · have hs3 : stem = rest'.reverse ++ [c3, c2, c1] := by
          rw [hs]
          simp
        have hp3 : pyNeg stem 3 = c3 := by
          rw [hs3, pyNeg_append _ _ 3 (by omega) (by simp)]
          rfl
        have hlen : stem.length = rest'.length + 3 := by
          rw [hs3]
          simp
        have hge2 : ¬ stem.length < 2 := by omega
        have hge3 : ¬ stem.length < 3 := by omega
        rw [double_final_consonant, hdc]
        rw [if_neg hge2]
        simp only [hp1, hp2, hp3, hge3, false_or, List.isEmpty_cons, List.headD_cons,
          Bool.false_or, List.take_succ_cons, List.take_zero]
        by_cases h1 : is_consonant c1 = true <;>
          by_cases h2 : is_vowel c2 = true <;>
          by_cases h3 : c1 ∈ (['w', 'x', 'y'] : List Char) <;>
          by_cases h4 : is_consonant c3 = true <;>
          simp [h1, h2, h3, h4]

/-- C3 (corrected): `double_final_consonant` appends the final consonant
exactly when the amended condition holds: the stem ends
consonant-vowel-consonant with final consonant outside {w, x, y}, where a
length-2 vowel-consonant stem also qualifies, and — contrary to the claim's
"length 0 or 1 unchanged" — a single-consonant stem is doubled as well (with
no w/x/y exclusion); every other stem is returned unchanged. -/
theorem claim_C3_corrected (stem : Str) :
    (doubles_condition stem = true →
       ∃ c, stem.getLast? = some c ∧ double_final_consonant stem = stem ++ [c]) ∧
    (doubles_condition stem = false → double_final_consonant stem = stem) := by
  constructor
  · intro ht
    rcases hrev : stem.reverse with _ | ⟨c1, rest1⟩
    · have : doubles_condition stem = false := by
        unfold doubles_condition
        rw [hrev]
      rw [this] at ht
      cases ht
    · refine ⟨c1, ?_, ?_⟩
      · rw [← List.head?_reverse, hrev]
        rfl
      · rw [dfc_eq, if_pos ht, hrev]
        rfl
  · intro hf
    rw [dfc_eq, if_neg (by simp [hf])]

/-- Witness for C3 at concrete inputs: "hop" doubles ("hopp"), "snow" does
not (final w excluded). -/
theorem claim_C3_witness :
    double_final_consonant (pstr "hop") = pstr "hop" ++ ['p'] ∧
    double_final_consonant (pstr "snow") = pstr "snow" := by
  constructor
  · obtain ⟨c, hc, hd⟩ := (claim_C3_corrected (pstr "hop")).1 (by decide)
    have : c = 'p' := by
      have := hc
      simp [pstr] at this
      exact this.symm
    rw [← this]
    exact hd
  · exact (claim_C3_corrected (pstr "snow")).2 (by decide)

/-- C4 (corrected): tense past reads the irregular entry's `past` slot, but
tense past_participle reads the entry's `past_participle` slot — not the
`past` slot as the claim states; a missing entry, missing slot or empty slot
string falls back to the regular -ed form, which is built exactly as the
claim describes (final e → +"d"; consonant-preceded final y → y replaced by
"ied"; CVC doubling applies → doubled stem + "ed"; otherwise lemma + "ed").
With the spec-modelled run entry, `generate_form("run", VERB, {tense: past})`
is "ran". -/
theorem claim_C4_corrected (t : Tables) (lem : Str) :
    ((generate_form t lem PartOfSpeech.VERB { tense := some (pstr "past") }).form =
      match dget ((dget t.irregular_verbs (toLowerStr lem)).getD []) (pstr "past") with
      | some v => if v = [] then regular_past lem else v
      | none => regular_past lem) ∧
    ((generate_form t lem PartOfSpeech.VERB
        { tense := some (pstr "past_participle") }).form =
      match dget ((dget t.irregular_verbs (toLowerStr lem)).getD [])
          (pstr "past_participle") with
      | some v => if v = [] then regular_past lem else v
      | none => regular_past lem) ∧
    (endswith lem (pstr "e") = true → regular_past lem = lem ++ pstr "d") ∧
    (endswith lem (pstr "e") = false →
      (endswith lem (pstr "y") ∧ 2 ≤ lem.length ∧ is_consonant (pyNeg lem 2)) →
      regular_past lem = lem.dropLast ++ pstr "ied") ∧
    (endswith lem (pstr "e") = false →
      ¬ (endswith lem (pstr "y") ∧ 2 ≤ lem.length ∧ is_consonant (pyNeg lem 2)) →
      double_final_consonant lem ≠ lem →
      regular_past lem = double_final_consonant lem ++ pstr "ed") ∧
    (endswith lem (pstr "e") = false →
      ¬ (endswith lem (pstr "y") ∧ 2 ≤ lem.length ∧ is_consonant (pyNeg lem 2)) →
      double_final_consonant lem = lem →
      regular_past lem = lem ++ pstr "ed") ∧
    (generate_form ⟨spec_irregular_verbs, [], []⟩ (pstr "run") PartOfSpeech.VERB
        { tense := some (pstr "past") }).form = pstr "ran" := by
  have hne : ¬ (some (pstr "past_participle") = some (pstr "past")) := by decide
  refine ⟨?_, ?_, ?_, ?_, ?_, ?_, by decide⟩
  · rcases h : dget ((dget t.irregular_verbs (toLowerStr lem)).getD []) (pstr "past")
      with _ | v
    · simp [generate_form, generate_verb_form, orElseStr, h]
    · simp [generate_form, generate_verb_form, orElseStr, h]
  · rcases h : dget ((dget t.irregular_verbs (toLowerStr lem)).getD [])
        (pstr "past_participle") with _ | v
    · simp [generate_form, generate_verb_form, orElseStr, hne, h]
    · simp [generate_form, generate_verb_form, orElseStr, hne, h]
  · intro he
    unfold regular_past
    rw [if_pos he]
  · intro he hy
    unfold regular_past
    rw [if_neg (by simp [he]), if_pos hy]
  · intro he hy hd
    unfold regular_past
    rw [if_neg (by simp [he]), if_neg hy]
    show (if double_final_consonant lem ≠ lem then double_final_consonant lem ++ pstr "ed"
          else lem ++ pstr "ed") = _
    rw [if_pos hd]
  · intro he hy hd
    unfold regular_past
    rw [if_neg (by simp [he]), if_neg hy]
    show (if double_final_consonant lem ≠ lem then double_final_consonant lem ++ pstr "ed"
          else lem ++ pstr "ed") = _
    rw [if_neg (by simp [hd])]

/-- Witness for C4 at concrete inputs: "hop" doubles to "hopped"; the
past of irregular "run" is its past slot. -/
theorem claim_C4_witness :
    regular_past (pstr "hop") = double_final_consonant (pstr "hop") ++ pstr "ed" :=
  (claim_C4_corrected ⟨[], [], []⟩ (pstr "hop")).2.2.2.2.1 (by decide) (by decide)
    (by decide)

/-- The number of maximal runs of vowel characters in a string, counted by
their right ends: a run ends at a vowel followed by a non-vowel, or at a
final vowel. This is the claim's "maximal runs of vowel characters" in a
formulation independent of the source's accumulator loop. -/
def count_vowel_runs : Str → Nat
  | [] => 0
  | [c] => if is_vowel c then 1 else 0
  | c :: d :: rest =>
      (if is_vowel c && !is_vowel d then 1 else 0) + count_vowel_runs (d :: rest)

def headIsVowel : Str → Bool
  | [] => false
  | c :: _ => is_vowel c

theorem count_vowel_runs_pos (s : Str) (h : headIsVowel s = true) :
    1 ≤ count_vowel_runs s := by
  induction s with
  | nil => simp [headIsVowel] at h
  | cons c rest ih =>
    simp only [headIsVowel] at h
    cases rest with
    | nil => simp [count_vowel_runs, h]
    | cons d rest' =>
      by_cases hd : is_vowel d = true
      · have := ih (by simpa [headIsVowel] using hd)
        simp only [count_vowel_runs]
        omega
      · simp only [count_vowel_runs, h, hd]
        simp

theorem vowel_group_loop_runs (s : Str) : ∀ n : Nat, ∀ b : Bool,
    vowel_group_loop n b s =
      n + count_vowel_runs s - (if b && headIsVowel s then 1 else 0) := by
  induction s with
  | nil => intro n b; simp [vowel_group_loop, count_vowel_runs, headIsVowel]
  | cons c rest ih =>
    intro n b
    by_cases hc : is_vowel c = true
    · rw [vowel_group_loop, if_pos hc, ih]
      cases rest with
      | nil =>
        cases b <;> simp [count_vowel_runs, headIsVowel, hc]
      | cons d rest' =>
        have hpos : is_vowel d = true → 1 ≤ count_vowel_runs (d :: rest') := by
          intro hd
          exact count_vowel_runs_pos _ (by simpa [headIsVowel] using hd)
        by_cases hd : is_vowel d = true
        · have h1 := hpos hd
          cases b <;> simp [count_vowel_runs, headIsVowel, hc, hd] <;> omega
        · cases b <;> simp [count_vowel_runs, headIsVowel, hc, hd] <;> omega
    · rw [vowel_group_loop, if_neg hc, ih]
      cases rest with
      | nil => simp [count_vowel_runs, headIsVowel, hc]
      | cons d rest' =>
        simp only [count_vowel_runs, headIsVowel, hc, Bool.false_and, Bool.and_false]
        cases b <;> simp [hc]

theorem vowel_group_loop_spec (s : Str) :
    vowel_group_loop 0 false s = count_vowel_runs s := by
  simpa using vowel_group_loop_runs s 0 false

/-- C5: for a lemma with no irregular adjective entry, the comparative and
superlative are synthetic suffixed forms when the lowercased lemma has at
most 2 maximal vowel runs (final e → +"r"/"st"; consonant-preceded final
y → "-ier"/"-iest"; CVC doubling → doubled stem + "-er"/"-est"; else
lemma + "-er"/"-est"), and periphrastic "more/most {lemma}" when it has
more than 2; in particular `generate_form("happy", ADJECTIVE,
{degree: comparative})` is "happier". -/
theorem claim_C5_confirmed (t : Tables) (lem : Str)
    (h : dget t.irregular_adjectives (toLowerStr lem) = none) :
    ((generate_form t lem PartOfSpeech.ADJECTIVE
        { degree := some (pstr "comparative") }).form =
      if count_vowel_runs (toLowerStr lem) ≤ 2 then
        if endswith lem (pstr "e") then lem ++ pstr "r"
        else if endswith lem (pstr "y") ∧ 2 ≤ lem.length ∧ is_consonant (pyNeg lem 2) then
          lem.dropLast ++ pstr "ier"
        else if double_final_consonant lem ≠ lem then
          double_final_consonant lem ++ pstr "er"
        else lem ++ pstr "er"
      else pstr "more " ++ lem) ∧
    ((generate_form t lem PartOfSpeech.ADJECTIVE
        { degree := some (pstr "superlative") }).form =
      if count_vowel_runs (toLowerStr lem) ≤ 2 then
        if endswith lem (pstr "e") then lem ++ pstr "st"
        else if endswith lem (pstr "y") ∧ 2 ≤ lem.length ∧ is_consonant (pyNeg lem 2) then
          lem.dropLast ++ pstr "iest"
        else if double_final_consonant lem ≠ lem then
          double_final_consonant lem ++ pstr "est"
        else lem ++ pstr "est"
      else pstr "most " ++ lem) ∧
    (generate_form ⟨[], [], []⟩ (pstr "happy") PartOfSpeech.ADJECTIVE
        { degree := some (pstr "comparative") }).form = pstr "happier" := by
  have hsne : ¬ (some (pstr "superlative") = some (pstr "comparative")) := by decide
  refine ⟨?_, ?_, by decide⟩
  · simp [generate_form, generate_adjective_form, h, regular_comparative,
      is_short_adjective, vowel_group_loop_spec]
  · simp [generate_form, generate_adjective_form, h, hsne, regular_superlative,
      is_short_adjective, vowel_group_loop_spec]

/-- Witness for C5 at a concrete input: "tall" (1 vowel run) gets "taller". -/
theorem claim_C5_witness :
    (generate_form ⟨[], [], []⟩ (pstr "tall") PartOfSpeech.ADJECTIVE
        { degree := some (pstr "comparative") }).form = pstr "taller" := by
  have h := (claim_C5_confirmed ⟨[], [], []⟩ (pstr "tall") rfl).1
  rw [h]
  decide

/-- `NLTKStrategy._base_features` (`src/core/morphological_analyzer.py`
lines 100-107). -/
def base_features (pos : PartOfSpeech) : MorphologicalFeature :=
  match pos with
  | .VERB => { tense := some (pstr "present") }
  | .NOUN => { number := some (pstr "singular") }
  | .ADJECTIVE => { degree := some (pstr "positive") }
  | .ADVERB => { degree := some (pstr "positive") }
  | _ => {}

/-- `NLTKStrategy._infer_verb_features` (`src/core/morphological_analyzer.py`
lines 109-118). -/
def infer_verb_features (lem form : Str) : MorphologicalFeature :=
  if endswith form (pstr "ing") then
    { tense := some (pstr "present_participle"), aspect := some (pstr "progressive") }
  else if endswith form (pstr "ed") then { tense := some (pstr "past") }
  else if endswith form (pstr "en") ∧ form ≠ lem then
    { tense := some (pstr "past_participle") }
  else if endswith form (pstr "s") ∧ form ≠ lem then
    { tense := some (pstr "present"), person := some (pstr "3rd"),
      number := some (pstr "singular") }
  else { tense := some (pstr "present") }

/-- `NLTKStrategy._infer_noun_features` (`src/core/morphological_analyzer.py`
lines 120-125). -/
def infer_noun_features (lem form : Str) : MorphologicalFeature :=
  if form ≠ lem ∧ (endswith form (pstr "s") ∨ endswith form (pstr "es")
      ∨ endswith form (pstr "ies")) then
    { number := some (pstr "plural") }
  else if pyIn (pstr "'s") form ∨ pyIn (pstr "s'") form then
    { case' := some (pstr "possessive") }
  else { number := some (pstr "singular") }

/-- `NLTKStrategy._infer_adj_features` (`src/core/morphological_analyzer.py`
lines 127-132). -/
def infer_adj_features (lem form : Str) : MorphologicalFeature :=
  if endswith form (pstr "est") ∨ startswith form (pstr "most ") then
    { degree := some (pstr "superlative") }
  else if endswith form (pstr "er") ∨ startswith form (pstr "more ") then
    { degree := some (pstr "comparative") }
  else { degree := some (pstr "positive") }

/-- `NLTKStrategy._infer_features` (`src/core/morphological_analyzer.py`
lines 84-98). -/
def infer_features (lem form : Str) (pos : PartOfSpeech) : MorphologicalFeature :=
  if form = lem then base_features pos
  else
    match pos with
    | .VERB => infer_verb_features lem form
    | .NOUN => infer_noun_features lem form
    | .ADJECTIVE => infer_adj_features lem form
    | .ADVERB => infer_adj_features lem form
    | _ => {}

/-- The base-form features built inline at the `insert(0, ...)` sites of both
strategies (`src/core/morphological_analyzer.py` lines 66-77 and 190-201). -/
def insert_base_features (pos : PartOfSpeech) : MorphologicalFeature :=
  { tense := if pos = PartOfSpeech.VERB then some (pstr "present") else none,
    number := if pos = PartOfSpeech.NOUN then some (pstr "singular") else none,
    degree := if pos = PartOfSpeech.ADJECTIVE ∨ pos = PartOfSpeech.ADVERB then
      some (pstr "positive") else none }

/-- Loop body of `NLTKStrategy.analyze_tokens` for one lemma
(`src/core/morphological_analyzer.py` lines 54-79). -/
def nltk_lemma_forms (pos_map : Dict PartOfSpeech) (forms_map : Dict (List Str))
    (lem : Str) : List WordForm :=
  let pos := (dget pos_map lem).getD PartOfSpeech.OTHER
  let observed_forms := (dget forms_map lem).getD [lem]
  let word_forms := observed_forms.map fun form =>
    ({ form := form, ending := compute_ending lem form,
       features := infer_features lem form pos } : WordForm)
  if word_forms.any fun wf => decide (wf.form = lem) then word_forms
  else { form := lem, ending := [], features := insert_base_features pos } :: word_forms

/-- `NLTKStrategy.analyze_tokens` (`src/core/morphological_analyzer.py`
lines 44-82); the result dict is the association list keyed by each input
lemma. -/
def nltk_analyze_tokens (lemmas : List Str) (pos_map : Dict PartOfSpeech)
    (forms_map : Dict (List Str)) : Dict (List WordForm) :=
  lemmas.map fun lem => (lem, nltk_lemma_forms pos_map forms_map lem)

/-- `SpaCyStrategy._morph_to_features` (`src/core/morphological_analyzer.py`
lines 208-223); the spaCy morph dict is an association list of tag strings. -/
def morph_to_features (morph : Dict Str) : MorphologicalFeature :=
  let tense_map : Dict Str := [(pstr "Past", pstr "past"), (pstr "Pres", pstr "present")]
  let number_map : Dict Str := [(pstr "Sing", pstr "singular"), (pstr "Plur", pstr "plural")]
  let person_map : Dict Str := [(pstr "1", pstr "1st"), (pstr "2", pstr "2nd"), (pstr "3", pstr "3rd")]
  let degree_map : Dict Str := [(pstr "Pos", pstr "positive"), (pstr "Cmp", pstr "comparative"), (pstr "Sup", pstr "superlative")]
  { tense := dget tense_map ((dget morph (pstr "Tense")).getD []),
    number := dget number_map ((dget morph (pstr "Number")).getD []),
    person := dget person_map ((dget morph (pstr "Person")).getD []),
    degree := dget degree_map ((dget morph (pstr "Degree")).getD []),
    aspect := if dget morph (pstr "Aspect") = some (pstr "Prog") then
      some (pstr "progressive") else none,
    voice := if dget morph (pstr "Voice") = some (pstr "Pass") then
      some (pstr "passive") else none }

/-- One form of the `SpaCyStrategy.analyze_tokens` inner loop
(`src/core/morphological_analyzer.py` lines 179-186). The external tagger is
modelled as a function `nlp` from a surface form to the morph dict of the
first token of its doc, or `none` for an empty doc (the
`if not doc: continue` branch skips the form). -/
def spacy_token_form (nlp : Str → Option (Dict Str)) (lem form : Str) :
    Option WordForm :=
  match nlp form with
  | none => none
  | some morph => some ({ form := form, ending := compute_ending lem form,
                          features := morph_to_features morph } : WordForm)

/-- Loop body of `SpaCyStrategy.analyze_tokens` for one lemma
(`src/core/morphological_analyzer.py` lines 175-203); forms with an empty
doc are skipped (`filterMap`). -/
def spacy_lemma_forms (nlp : Str → Option (Dict Str)) (pos_map : Dict PartOfSpeech)
    (forms_map : Dict (List Str)) (lem : Str) : List WordForm :=
  let observed_forms := (dget forms_map lem).getD [lem]
  let word_forms := observed_forms.filterMap (spacy_token_form nlp lem)
  if word_forms.any fun wf => decide (wf.form = lem) then word_forms
  else
    ({ form := lem, ending := [],
       features := insert_base_features ((dget pos_map lem).getD PartOfSpeech.OTHER) }
      : WordForm) :: word_forms

/-- `SpaCyStrategy.analyze_tokens` (`src/core/morphological_analyzer.py`
lines 166-206); the result dict is the association list keyed by each input
lemma. -/
def spacy_analyze_tokens (nlp : Str → Option (Dict Str)) (lemmas : List Str)
    (pos_map : Dict PartOfSpeech) (forms_map : Dict (List Str)) :
    Dict (List WordForm) :=
  lemmas.map fun lem => (lem, spacy_lemma_forms nlp pos_map forms_map lem)

/-- One optional field of `MorphologicalFeature.to_dict`. -/
def optEntry (k : Str) : Option Str → List (Str × Str)
  | none => []
  | some v => [(k, v)]

/-- `MorphologicalFeature.to_dict` (`src/models/lexeme.py` lines 33-35):
the non-None fields, in dataclass field order. -/
def MorphologicalFeature.to_dict (m : MorphologicalFeature) : List (Str × Str) :=
  optEntry (pstr "tense") m.tense ++ optEntry (pstr "number") m.number
    ++ optEntry (pstr "person") m.person ++ optEntry (pstr "case") m.case'
    ++ optEntry (pstr "degree") m.degree ++ optEntry (pstr "aspect") m.aspect
    ++ optEntry (pstr "voice") m.voice

/-- `MorphologicalFeature.from_dict` (`src/models/lexeme.py` lines 37-41):
keep only known keys, missing keys default to None. -/
def MorphologicalFeature.from_dict (data : List (Str × Str)) : MorphologicalFeature :=
  { tense := dget data (pstr "tense"), number := dget data (pstr "number"),
    person := dget data (pstr "person"), case' := dget data (pstr "case"),
    degree := dget data (pstr "degree"), aspect := dget data (pstr "aspect"),
    voice := dget data (pstr "voice") }

theorem mem_optEntry (k k0 v : Str) (o : Option Str) :
    (k, v) ∈ optEntry k0 o ↔ k = k0 ∧ o = some v := by
  cases o <;> simp [optEntry] <;> aesop

set_option maxHeartbeats 3200000 in
/-- C9: serializing a MorphologicalFeature and deserializing it yields the
same record, and the serialized dict contains exactly the key-value pairs of
the fields that are not None (absent fields are omitted). -/
theorem claim_C9_confirmed (m : MorphologicalFeature) (k v : Str) :
    MorphologicalFeature.from_dict (MorphologicalFeature.to_dict m) = m ∧
    ((k, v) ∈ MorphologicalFeature.to_dict m ↔
      (k = pstr "tense" ∧ m.tense = some v) ∨ (k = pstr "number" ∧ m.number = some v)
      ∨ (k = pstr "person" ∧ m.person = some v) ∨ (k = pstr "case" ∧ m.case' = some v)
      ∨ (k = pstr "degree" ∧ m.degree = some v) ∨ (k = pstr "aspect" ∧ m.aspect = some v)
      ∨ (k = pstr "voice" ∧ m.voice = some v)) := by
  constructor
  · obtain ⟨t, n, p, c, d, a, vv⟩ := m
    cases t <;> cases n <;> cases p <;> cases c <;> cases d <;> cases a <;> cases vv <;>
      simp +decide [MorphologicalFeature.to_dict, MorphologicalFeature.from_dict,
        optEntry, dget]
  · simp [MorphologicalFeature.to_dict, List.mem_append, mem_optEntry]

/-- C10: in the heuristic noun classifier, an observed form different from
the lemma that ends in "s" (possessives like "dog's" included) is classified
{number: plural}; {case: possessive} is returned exactly for forms that
contain "'s" or "s'" but do not end in s/es/ies (such as "dogs'"). -/
theorem claim_C10_confirmed (lem form : Str) (hne : form ≠ lem) :
    ((endswith form (pstr "s") ∨ endswith form (pstr "es") ∨ endswith form (pstr "ies")) →
       infer_noun_features lem form = { number := some (pstr "plural") }) ∧
    (infer_noun_features lem form = { case' := some (pstr "possessive") } ↔
      (pyIn (pstr "'s") form ∨ pyIn (pstr "s'") form) ∧
        ¬ (endswith form (pstr "s") ∨ endswith form (pstr "es")
            ∨ endswith form (pstr "ies"))) := by
  constructor
  · intro hs
    rw [infer_noun_features, if_pos ⟨hne, hs⟩]
  · constructor
    · intro heq
      by_cases hs : endswith form (pstr "s") ∨ endswith form (pstr "es")
          ∨ endswith form (pstr "ies")
      · rw [infer_noun_features, if_pos ⟨hne, hs⟩] at heq
        exact absurd heq (by decide)
      · rw [infer_noun_features, if_neg (fun h => hs h.2)] at heq
        by_cases hp : pyIn (pstr "'s") form ∨ pyIn (pstr "s'") form
        · exact ⟨hp, hs⟩
        · rw [if_neg hp] at heq
          exact absurd heq (by decide)
    · rintro ⟨hp, hs⟩
      rw [infer_noun_features, if_neg (fun h => hs h.2), if_pos hp]

/-- Witness for C10 at concrete inputs: "dogs" is plural, "dogs'" is
possessive, for lemma "dog". -/
theorem claim_C10_witness :
    infer_noun_features (pstr "dog") (pstr "dogs") =
      { number := some (pstr "plural") } ∧
    infer_noun_features (pstr "dog") (pstr "dogs'") =
      { case' := some (pstr "possessive") } := by
  constructor
  · exact (claim_C10_confirmed (pstr "dog") (pstr "dogs") (by decide)).1 (by decide)
  · exact (claim_C10_confirmed (pstr "dog") (pstr "dogs'") (by decide)).2.mpr (by decide)

theorem dget_map_self {β : Type} (ls : List Str) (f : Str → β) (x : Str)
    (h : x ∈ ls) :
    dget (ls.map fun l => (l, f l)) x = some (f x) := by
  induction ls with
  | nil => cases h
  | cons a rest ih =>
    by_cases ha : a = x
    · subst ha
      simp [dget]
    · rcases List.mem_cons.mp h with h1 | h1
      · exact absurd h1.symm ha
      · simp [dget, ha, ih h1]

theorem spacy_token_form_form (nlp : Str → Option (Dict Str)) (lem f : Str)
    (wf : WordForm) (h : spacy_token_form nlp lem f = some wf) : wf.form = f := by
  unfold spacy_token_form at h
  cases hn : nlp f with
  | none =>
    rw [hn] at h
    cases h
  | some morph =>
    rw [hn] at h
    injection h with h2
    rw [← h2]

/-- The POS-conditioned default features as the claim words them: tense
present for VERB, number singular for NOUN, degree positive for
ADJECTIVE/ADVERB, empty otherwise. -/
def claim_default_features (pos : PartOfSpeech) : MorphologicalFeature :=
  { tense := if pos = PartOfSpeech.VERB then some (pstr "present") else none,
    number := if pos = PartOfSpeech.NOUN then some (pstr "singular") else none,
    degree := if pos = PartOfSpeech.ADJECTIVE ∨ pos = PartOfSpeech.ADVERB then
      some (pstr "positive") else none }

/-- C8: in both analyzer variants, every input lemma is a key of the result
dict, its list contains a WordForm whose form equals the lemma, and when no
observed form equals the lemma a WordForm with the lemma, empty ending and
the POS-conditioned default features (tense present for VERB, number
singular for NOUN, degree positive for ADJECTIVE/ADVERB, empty otherwise)
sits at position 0. -/
theorem claim_C8_confirmed (nlp : Str → Option (Dict Str)) (lemmas : List Str)
    (pos_map : Dict PartOfSpeech) (forms_map : Dict (List Str)) (lem : Str)
    (hmem : lem ∈ lemmas) :
    (dget (nltk_analyze_tokens lemmas pos_map forms_map) lem =
        some (nltk_lemma_forms pos_map forms_map lem) ∧
      (∃ wf ∈ nltk_lemma_forms pos_map forms_map lem, wf.form = lem) ∧
      ((∀ f ∈ (dget forms_map lem).getD [lem], f ≠ lem) →
        (nltk_lemma_forms pos_map forms_map lem).head? =
          some { form := lem, ending := [],
                 features := claim_default_features
                   ((dget pos_map lem).getD PartOfSpeech.OTHER) })) ∧
    (dget (spacy_analyze_tokens nlp lemmas pos_map forms_map) lem =
        some (spacy_lemma_forms nlp pos_map forms_map lem) ∧
      (∃ wf ∈ spacy_lemma_forms nlp pos_map forms_map lem, wf.form = lem) ∧
      ((∀ f ∈ (dget forms_map lem).getD [lem], f ≠ lem) →
        (spacy_lemma_forms nlp pos_map forms_map lem).head? =
          some { form := lem, ending := [],
                 features := claim_default_features
                   ((dget pos_map lem).getD PartOfSpeech.OTHER) })) := by
  refine ⟨⟨dget_map_self lemmas _ lem hmem, ?_, ?_⟩,
          ⟨dget_map_self lemmas _ lem hmem, ?_, ?_⟩⟩
  · simp only [nltk_lemma_forms]
    split
    next h =>
      obtain ⟨wf, hwf, hp⟩ := List.any_eq_true.mp h
      exact ⟨wf, hwf, of_decide_eq_true hp⟩
    next h =>
      exact ⟨_, List.mem_cons_self _ _, rfl⟩
  · intro hall
    simp only [nltk_lemma_forms]
    split
    next h =>
      exfalso
      obtain ⟨wf, hwf, hp⟩ := List.any_eq_true.mp h
      obtain ⟨f, hf, rfl⟩ := List.mem_map.mp hwf
      exact hall f hf (of_decide_eq_true hp)
    next h =>
      rfl
  · simp only [spacy_lemma_forms]
    split
    next h =>
      obtain ⟨wf, hwf, hp⟩ := List.any_eq_true.mp h
      exact ⟨wf, hwf, of_decide_eq_true hp⟩
    next h =>
      exact ⟨_, List.mem_cons_self _ _, rfl⟩
  · intro hall
    simp only [spacy_lemma_forms]
    split
    next h =>
      exfalso
      obtain ⟨wf, hwf, hp⟩ := List.any_eq_true.mp h
      obtain ⟨f, hf, hsf⟩ := List.mem_filterMap.mp hwf
      have hform := spacy_token_form_form nlp lem f wf hsf
      exact hall f hf (hform ▸ of_decide_eq_true hp)
    next h =>
      rfl

/-- Witness for C8 at a concrete input: lemma "run" with observed forms
["running", "ran"]; both strategies put the base form "run" with default
verb features at position 0. -/
theorem claim_C8_witness :
    (nltk_lemma_forms [(pstr "run", PartOfSpeech.VERB)]
        [(pstr "run", [pstr "running", pstr "ran"])] (pstr "run")).head? =
      some { form := pstr "run", ending := [],
             features := claim_default_features
               ((dget [(pstr "run", PartOfSpeech.VERB)]
                  (pstr "run")).getD PartOfSpeech.OTHER) } :=
  (claim_C8_confirmed (fun _ => none) [pstr "run"] [(pstr "run", PartOfSpeech.VERB)]
      [(pstr "run", [pstr "running", pstr "ran"])] (pstr "run")
      (by decide)).1.2.2 (by decide)

end Yazis
